import Mathlib

/-!
Verification of the core of a Conway's Game of Life implementation
(`main_v.1.0.3.py`): the board representation, the update rule, the
toroidal neighbour count, the simulation step, the pointer-to-square
coordinate mapper and the pause/play interaction dispatch.

Boards are embedded as lists of rows of natural-number cell values
(the source stores 0/1 in a numpy array).  Imperative writes into the
per-step output buffer are embedded as explicit state passing: the
simulation loop threads a pair (input board, output board) and each
iteration writes one cell of the output component, exactly as the
Python nested loops do.
-/

namespace GameOfLife

/-- A board is a list of rows; each cell is a natural number (0 or 1
in every reachable state). -/
abbrev Board := List (List Nat)

/-- Colours used by the source (RGB triples). -/
abbrev Colour := Nat × Nat × Nat

def WHITE : Colour := (255, 255, 255)
def BLACK : Colour := (0, 0, 0)

/-- `createBoard(width, height)`: `np.zeros((width, height))`, a board
of `width` rows each holding `height` zero cells. -/
def createBoard (width height : Nat) : Board :=
  List.replicate width (List.replicate height 0)

/-- Read cell `(i, j)` of a board (0 outside the board, but all uses
are guarded by in-bounds hypotheses, as in the source). -/
def getCell (board : Board) (i j : Nat) : Nat :=
  (board.getD i []).getD j 0

/-- Write cell `(i, j)` of a board: `board[i, j] = v`. -/
def setCell (board : Board) (i j : Nat) (v : Nat) : Board :=
  board.set i ((board.getD i []).set j v)

/-- numpy integer indexing into an axis of length `len`: a negative
index `t` addresses position `len + t`. -/
def npIndex (len : Nat) (t : Int) : Nat :=
  if t < 0 then ((len : Int) + t).toNat else t.toNat

/-- `rules(alive, count)`: the Game of Life transition for one cell,
returning the new state together with the colour to draw. -/
def rules (alive count : Nat) : Nat × Colour :=
  if alive = 1 ∧ (count = 2 ∨ count = 3) then (1, WHITE)
  else if alive = 0 ∧ count = 3 then (1, WHITE)
  else (0, BLACK)

/-- The eight neighbour coordinates of `(i, j)` in the order the
source lists them (`nPos`). -/
def nPos (i j : Int) : List (Int × Int) :=
  [(i - 1, j), (i - 1, j - 1), (i, j - 1), (i + 1, j - 1),
   (i + 1, j), (i + 1, j + 1), (i, j + 1), (i - 1, j + 1)]

/-- Read the (possibly negative, numpy-wrapped) cell `board[r, c]` of a
board with `width` rows and `height` columns. -/
def readCell (board : Board) (width height : Nat) (r c : Int) : Nat :=
  (board.getD (npIndex width r) []).getD (npIndex height c) 0

/-- One iteration of the neighbour-counting loop in `tick`: remap a
coordinate equal to the axis length to 0 (the source's explicit wrap),
then bump the count when the cell read from the input board is 1. -/
def nbStep (board : Board) (width height : Nat) (count : Nat) (nb : Int × Int) : Nat :=
  let nb1 := if nb.1 = (width : Int) then ((0 : Int), nb.2) else nb
  let nb2 := if nb1.2 = (height : Int) then (nb1.1, (0 : Int)) else nb1
  if readCell board width height nb2.1 nb2.2 = 1 then count + 1 else count

/-- The live-neighbour count computed by `tick` for cell `(i, j)`. -/
def neighborCount (board : Board) (width height i j : Nat) : Nat :=
  (nPos i j).foldl (nbStep board width height) 0

/-- The value `tick` writes into output cell `(i, j)`:
`rules(board[i, j], count)[0]`. -/
def tickCell (board : Board) (width height i j : Nat) : Nat :=
  (rules (getCell board i j) (neighborCount board width height i j)).1

/-- Body of the inner (column) loop of `tick`: read the cell and its
neighbour count from the input component `st.1`, write the rule result
into the output component `st.2`. -/
def innerStep (width height i : Nat) (st : Board × Board) (j : Nat) : Board × Board :=
  (st.1, setCell st.2 i j (tickCell st.1 width height i j))

/-- Body of the outer (row) loop of `tick`. -/
def outerStep (width height : Nat) (st : Board × Board) (i : Nat) : Board × Board :=
  (List.range height).foldl (innerStep width height i) st

/-- The full double loop of `tick` on the (input, output) pair. -/
def tickLoop (width height : Nat) (st : Board × Board) : Board × Board :=
  (List.range width).foldl (outerStep width height) st

/-- `tick(board)`: allocate the output as a copy of the input
(`np.copy`), run the double loop, return the output component. -/
def tick (board : Board) : Board :=
  let width := board.length
  let height := (board.getD 0 []).length
  (tickLoop width height (board, board)).2

/-- `pos_to_square(pos, cellsize, border_size, dim_x, dim_y)`: map a
pointer position to a square index and a pause flag.  Arithmetic is on
Python ints, embedded as `Int` (pointer coordinates are non-negative). -/
def pos_to_square (pos : Nat × Nat) (cellsize border_size dim_x dim_y : Nat) :
    (Int × Int) × Bool :=
  let x : Int := (pos.1 : Int) / ((cellsize : Int) + (border_size : Int))
  let y : Int := (pos.2 : Int) / ((cellsize : Int) + (border_size : Int))
  let x := if x ≥ (dim_y : Int) then (dim_y : Int) - 1 else x
  let y := if y ≥ (dim_x : Int) then (dim_x : Int) - 1 else y
  let pause := x = 0 ∧ y = 0
  ((x, y - 1), decide pause)

/-- `change_square(mainBoard, square)`: flip `mainBoard[square[1], square[0]]`
between 0 and nonzero (numpy indexing, so negative components wrap). -/
def change_square (mainBoard : Board) (square : Int × Int) : Board :=
  let ri := npIndex mainBoard.length square.2
  let row := mainBoard.getD ri []
  let ci := npIndex row.length square.1
  let state := row.getD ci 0
  if state = 0 then mainBoard.set ri (row.set ci 1)
  else mainBoard.set ri (row.set ci 0)

/-- The input events the interaction loops dispatch on. -/
inductive Event
  | pointerDown (pos : Nat × Nat)
  | tickEvent
  | other

/-- The interaction mode: the `paused` loop (Editing) or the `play`
loop (Advancing). -/
inductive Mode
  | editing
  | advancing
deriving DecidableEq

/-- One event dispatch of the interaction machine, timer state
included: `timerOn` records whether the repeating `TICK` timer is
armed.  `pygame.time.set_timer(TICK, TICK_SPEED)` arms it; the source
never calls `set_timer(TICK, 0)`, so no branch disarms it.
Editing (`paused`): a control-region click arms the timer and enters
Advancing; a dead-zone click is ignored; any other click toggles the
clicked square; `TICK` events are drained without a handler, leaving
the timer as it is.  Advancing (`play`): a control-region click enters
Editing with the timer left as it is; any other click is ignored; a
`TICK` event replaces the board by `tick(board)` and re-arms the
timer. -/
def machineStep (cellsize border_size dimx dimy : Nat) (mode : Mode)
    (board : Board) (timerOn : Bool) (e : Event) : Mode × Board × Bool :=
  match mode, e with
  | .editing, .pointerDown pos =>
      let sp := pos_to_square pos cellsize border_size dimx dimy
      if sp.2 then (.advancing, board, true)
      else if sp.1.2 = -1 then (.editing, board, timerOn)
      else (.editing, change_square board sp.1, timerOn)
  | .editing, _ => (.editing, board, timerOn)
  | .advancing, .pointerDown pos =>
      let sp := pos_to_square pos cellsize border_size dimx dimy
      if sp.2 then (.editing, board, timerOn)
      else (.advancing, board, timerOn)
  | .advancing, .tickEvent => (.advancing, tick board, true)
  | .advancing, .other => (.advancing, board, timerOn)

/-- One dispatch of the `paused` (Editing) event loop: a left
pointer-down either unpauses (control-region hit), is ignored
(dead-zone hit, mapped second component `-1`), or toggles the clicked
square.  The result is the new board and the flag that, when true,
makes `paused` hand control to `play`. -/
def pausedHandleEvent (board : Board) (cellsize border_size dimx dimy : Nat)
    (e : Event) : Board × Bool :=
  match e with
  | .pointerDown pos =>
      let sp := pos_to_square pos cellsize border_size dimx dimy
      if sp.2 then (board, true)
      else if sp.1.2 = -1 then (board, false)
      else (change_square board sp.1, false)
  | _ => (board, false)

/-- The source's explicit wrap of one coordinate in `tick`: an index
equal to the axis length is remapped to 0 (negative indices are left
to numpy's indexing, handled by `npIndex`). -/
def wrapIdx (len : Nat) (t : Int) : Int :=
  if t = (len : Int) then 0 else t

/-- The 8 neighbour offsets (spec order: all pairs over {-1,0,1}
except (0,0)). -/
def neighborOffsets : List (Int × Int) :=
  [(-1, -1), (-1, 0), (-1, 1), (0, -1), (0, 1), (1, -1), (1, 0), (1, 1)]

/-- Modelled from the spec's words, for comparison with the source's
`neighborCount`: "sums the Alive state of the 8 toroidally-wrapped
neighbors of (row, col)" — each neighbour coordinate is reduced
modulo the corresponding dimension. -/
def toroidalNeighborCount (board : Board) (width height i j : Nat) : Nat :=
  (neighborOffsets.map (fun d =>
    if (board.getD ((((i : Int) + d.1) % (width : Int)).toNat) []).getD
        ((((j : Int) + d.2) % (height : Int)).toNat) 0 = 1 then 1 else 0)).sum

/-- The invariant of every reachable board: each cell is 0 or 1. -/
def binaryBoard (b : Board) : Prop :=
  ∀ row ∈ b, ∀ v ∈ row, v = 0 ∨ v = 1

/-- The inner (column) loop of `tick` restricted to its writes: fill
columns `0..n-1` of row `i` of `out` with the rule results computed
from the input board `b`. -/
def writeRowN (b : Board) (width height i n : Nat) (out : Board) : Board :=
  (List.range n).foldl (fun out j => setCell out i j (tickCell b width height i j)) out

/-- The outer (row) loop of `tick` restricted to its writes: fill rows
`0..m-1` of `out` with the rule results computed from `b`. -/
def writeRowsN (b : Board) (width height m : Nat) (out : Board) : Board :=
  (List.range m).foldl (fun out i => writeRowN b width height i height out) out

/-! ### Basic list-access lemmas -/

theorem npIndex_natCast (len n : Nat) : npIndex len (n : Int) = n := by
  simp [npIndex]

theorem getD_set_self {α : Type} (l : List α) (i : Nat) (v d : α) (h : i < l.length) :
    (l.set i v).getD i d = v := by
  rw [List.getD_eq_getElem _ _ (by simpa using h), List.getElem_set]
  simp

theorem getD_set_ne {α : Type} (l : List α) (i j : Nat) (v d : α) (h : i ≠ j) :
    (l.set i v).getD j d = l.getD j d := by
  rw [List.getD_eq_getElem?_getD, List.getD_eq_getElem?_getD, List.getElem?_set]
  simp [h]

theorem set_getD_self {α : Type} (l : List α) (i : Nat) (d : α) (h : i < l.length) :
    l.set i (l.getD i d) = l := by
  apply List.ext_getElem?
  intro n
  rw [List.getElem?_set]
  split
  · next heq =>
      subst heq
      simp [List.getD_eq_getElem _ _ h, List.getElem?_eq_getElem h]
  · rfl

/-- `change_square` at non-negative (already Nat) square components. -/
theorem change_square_nat (board : Board) (cn rn : Nat) :
    change_square board ((cn : Int), (rn : Int)) =
      (if (board.getD rn []).getD cn 0 = 0
       then board.set rn ((board.getD rn []).set cn 1)
       else board.set rn ((board.getD rn []).set cn 0)) := by
  simp only [change_square, npIndex_natCast]

/-! ### Claim theorems: rule table, coordinate mapper, interaction -/

/-- C1: over all cell states in {0, 1} and neighbour counts in 0..8,
`rules` returns Alive (1) exactly for a live cell with 2 or 3 live
neighbours or a dead cell with exactly 3, and Dead (0) in every other
of the 18 combinations. -/
theorem rules_table :
    ∀ alive < 2, ∀ count < 9,
      ((rules alive count).1 = 1 ↔
        ((alive = 1 ∧ (count = 2 ∨ count = 3)) ∨ (alive = 0 ∧ count = 3))) ∧
      ((rules alive count).1 = 1 ∨ (rules alive count).1 = 0) := by
  decide

/-- Witness for C1: a live cell with 3 live neighbours stays alive. -/
theorem rules_table_witness :
    ((rules 1 3).1 = 1 ↔ ((1 = 1 ∧ (3 = 2 ∨ 3 = 3)) ∨ (1 = 0 ∧ 3 = 3))) ∧
    ((rules 1 3).1 = 1 ∨ (rules 1 3).1 = 0) :=
  rules_table 1 (by decide) 3 (by decide)

/-- C5 counterexample: with `cellsize = 30` and `border_size = 2`,
pointer `(32, 32)` does NOT map to the control region: `int(32/32) = 1`,
so the pause flag is `false` and the mapped square is the playable
index `(1, 0)`. -/
theorem pos_to_square_32_counterexample :
    (pos_to_square (32, 32) 30 2 20 30).2 = false ∧
    (pos_to_square (32, 32) 30 2 20 30).1 = (1, 0) := by
  decide

/-- C5 amended: with `cellsize = 30`, `border_size = 2` and the
program's dimensions 20×30, pointer `(32, 32)` maps to the playable
square `(1, 0)` with no pause hit; the control region is hit exactly
when both raw coordinates are below 32, e.g. at `(31, 31)`; and
pointer `(64, 64)` maps to the deterministic playable square `(2, 1)`. -/
theorem pos_to_square_examples :
    pos_to_square (32, 32) 30 2 20 30 = ((1, 0), false) ∧
    pos_to_square (31, 31) 30 2 20 30 = ((0, -1), true) ∧
    pos_to_square (64, 64) 30 2 20 30 = ((2, 1), false) := by
  decide

/-- C7: for every pointer position (pygame coordinates are natural
numbers) and positive dimensions, `pos_to_square` clamps: the first
square component lies in `[0, dim_y - 1]`, the second in
`[-1, dim_x - 2]`; in particular a non-dead-zone second component is
non-negative, so the derived cell access is in bounds. -/
theorem pos_to_square_clamped (pos : Nat × Nat) (cellsize border_size dim_x dim_y : Nat)
    (hdx : 1 ≤ dim_x) (hdy : 1 ≤ dim_y) (hsz : 0 < cellsize + border_size) :
    0 ≤ (pos_to_square pos cellsize border_size dim_x dim_y).1.1 ∧
    (pos_to_square pos cellsize border_size dim_x dim_y).1.1 ≤ (dim_y : Int) - 1 ∧
    -1 ≤ (pos_to_square pos cellsize border_size dim_x dim_y).1.2 ∧
    (pos_to_square pos cellsize border_size dim_x dim_y).1.2 ≤ (dim_x : Int) - 2 ∧
    ((pos_to_square pos cellsize border_size dim_x dim_y).1.2 ≠ -1 →
      0 ≤ (pos_to_square pos cellsize border_size dim_x dim_y).1.2) := by
  have hx : 0 ≤ (pos.1 : Int) / ((cellsize : Int) + (border_size : Int)) :=
    Int.ediv_nonneg (by positivity) (by positivity)
  have hy : 0 ≤ (pos.2 : Int) / ((cellsize : Int) + (border_size : Int)) :=
    Int.ediv_nonneg (by positivity) (by positivity)
  simp only [pos_to_square]
  split <;> split <;> (constructor; · omega) <;> refine ⟨by omega, by omega, ?_, by omega⟩ <;> omega

/-- Witness for C7 at a far-out-of-range pointer position. -/
theorem pos_to_square_clamped_witness :
    0 ≤ (pos_to_square (10000, 10000) 30 2 20 30).1.1 ∧
    (pos_to_square (10000, 10000) 30 2 20 30).1.1 ≤ (30 : Int) - 1 ∧
    -1 ≤ (pos_to_square (10000, 10000) 30 2 20 30).1.2 ∧
    (pos_to_square (10000, 10000) 30 2 20 30).1.2 ≤ (20 : Int) - 2 ∧
    ((pos_to_square (10000, 10000) 30 2 20 30).1.2 ≠ -1 →
      0 ≤ (pos_to_square (10000, 10000) 30 2 20 30).1.2) :=
  pos_to_square_clamped (10000, 10000) 30 2 20 30 (by decide) (by decide) (by decide)

/-- C4 counterexample: while Advancing on the initial 20×30 board with
the tick timer armed, a left pointer-down at `(64, 64)` — a playable
square, not the control region — causes no transition to Editing; and
a pointer-down at `(31, 31)` — the control region — does transition to
Editing but leaves the tick timer armed instead of disarming it.  So
both the "any click pauses" and the "pausing disarms the tick" parts
of the claim fail on the code. -/
theorem play_click_counterexample :
    machineStep 30 2 20 30 .advancing (createBoard 20 30) true (.pointerDown (64, 64)) =
      (.advancing, createBoard 20 30, true) ∧
    machineStep 30 2 20 30 .advancing (createBoard 20 30) true (.pointerDown (31, 31)) =
      (.editing, createBoard 20 30, true) := by
  decide

/-- C4 amended: while Advancing, a pointer-down transitions to Editing
iff `pos_to_square` flags the click as a control-region (pause) hit —
not at every position; the click itself never changes the board (no
cell is toggled by a pointer-down handled in `play`); and no
pointer-down disarms the tick timer — the timer state is returned
exactly as it was, the ensuing Editing loop merely draining tick
events without acting on them. -/
theorem play_click_pauses_iff (board : Board) (cellsize border_size dimx dimy : Nat)
    (pos : Nat × Nat) (t : Bool) :
    (machineStep cellsize border_size dimx dimy .advancing board t (.pointerDown pos)).2.1 =
      board ∧
    (machineStep cellsize border_size dimx dimy .advancing board t (.pointerDown pos)).2.2 =
      t ∧
    ((machineStep cellsize border_size dimx dimy .advancing board t (.pointerDown pos)).1 =
        Mode.editing ↔
      (pos_to_square pos cellsize border_size dimx dimy).2 = true) ∧
    machineStep cellsize border_size dimx dimy .editing board t .tickEvent =
      (.editing, board, t) := by
  by_cases hp : (pos_to_square pos cellsize border_size dimx dimy).2 = true
  · simp [machineStep, hp]
  · simp [machineStep, hp]

/-- C8: in the Editing (paused) loop, a pointer-down whose mapped
square has second component `-1` and is not a control-region hit is a
no-op: the board is returned unchanged and no transition happens. -/
theorem paused_dead_zone (board : Board) (cellsize border_size dimx dimy : Nat)
    (pos : Nat × Nat)
    (hp : (pos_to_square pos cellsize border_size dimx dimy).2 = false)
    (hdz : (pos_to_square pos cellsize border_size dimx dimy).1.2 = -1) :
    pausedHandleEvent board cellsize border_size dimx dimy (.pointerDown pos) =
      (board, false) := by
  simp [pausedHandleEvent, hp, hdz]

/-- Witness for C8: a click at `(64, 10)` maps to square `(2, -1)` in
the dead zone and leaves the board alone. -/
theorem paused_dead_zone_witness :
    pausedHandleEvent [[0, 1], [1, 0]] 30 2 20 30 (.pointerDown (64, 10)) =
      ([[0, 1], [1, 0]], false) :=
  paused_dead_zone [[0, 1], [1, 0]] 30 2 20 30 (64, 10) (by decide) (by decide)

/-- C9: on a binary board, toggling an in-range square twice restores
the board, and a single toggle changes no cell other than the targeted
one (`board[square[1], square[0]]`). -/
theorem change_square_toggle (board : Board) (square : Int × Int)
    (hbin : ∀ row ∈ board, ∀ v ∈ row, v = 0 ∨ v = 1)
    (hr0 : 0 ≤ square.2) (hrlt : square.2.toNat < board.length)
    (hc0 : 0 ≤ square.1) (hclt : square.1.toNat < (board.getD square.2.toNat []).length) :
    change_square (change_square board square) square = board ∧
    ∀ i j : Nat, ¬(i = square.2.toNat ∧ j = square.1.toNat) →
      getCell (change_square board square) i j = getCell board i j := by
  obtain ⟨cI, rI⟩ := square
  obtain ⟨rn, rfl⟩ : ∃ n : Nat, rI = (n : Int) := ⟨rI.toNat, (Int.toNat_of_nonneg hr0).symm⟩
  obtain ⟨cn, rfl⟩ : ∃ n : Nat, cI = (n : Int) := ⟨cI.toNat, (Int.toNat_of_nonneg hc0).symm⟩
  simp only [Int.toNat_natCast] at hrlt hclt ⊢
  have hrow : (board.getD rn []) ∈ board := by
    rw [List.getD_eq_getElem _ _ hrlt]
    exact List.getElem_mem _
  have hv : (board.getD rn []).getD cn 0 = 0 ∨ (board.getD rn []).getD cn 0 = 1 := by
    refine hbin _ hrow _ ?_
    rw [List.getD_eq_getElem _ _ hclt]
    exact List.getElem_mem _
  have hlen1 : ∀ v : Nat,
      (board.set rn ((board.getD rn []).set cn v)).getD rn [] =
        (board.getD rn []).set cn v := fun v => getD_set_self _ _ _ _ hrlt
  have hcl : ∀ v : Nat, cn < ((board.getD rn []).set cn v).length := by
    intro v; simpa using hclt
  have hside : ∀ v : Nat, ∀ i j : Nat, ¬(i = rn ∧ j = cn) →
      getCell (board.set rn ((board.getD rn []).set cn v)) i j = getCell board i j := by
    intro v i j hij
    unfold getCell
    by_cases hi : i = rn
    · subst hi
      rw [hlen1 v, getD_set_ne]
      intro hj
      exact hij ⟨rfl, hj.symm⟩
    · rw [getD_set_ne _ _ _ _ _ fun h => hi h.symm]
  rcases hv with h0 | h1
  · have hb1 : change_square board ((cn : Int), (rn : Int)) =
        board.set rn ((board.getD rn []).set cn 1) := by
      rw [change_square_nat, if_pos h0]
    rw [hb1, change_square_nat, hlen1 1, getD_set_self _ _ _ _ hclt]
    refine ⟨?_, ?_⟩
    · rw [if_neg (by decide), List.set_set, List.set_set]
      calc board.set rn ((board.getD rn []).set cn 0)
          = board.set rn ((board.getD rn []).set cn ((board.getD rn []).getD cn 0)) := by
            rw [h0]
        _ = board.set rn (board.getD rn []) := by rw [set_getD_self _ _ _ hclt]
        _ = board := set_getD_self _ _ _ hrlt
    · exact hside 1
  · have hb1 : change_square board ((cn : Int), (rn : Int)) =
        board.set rn ((board.getD rn []).set cn 0) := by
      rw [change_square_nat, if_neg (by rw [h1]; decide)]
    rw [hb1, change_square_nat, hlen1 0, getD_set_self _ _ _ _ hclt]
    refine ⟨?_, ?_⟩
    · rw [if_pos rfl, List.set_set, List.set_set]
      calc board.set rn ((board.getD rn []).set cn 1)
          = board.set rn ((board.getD rn []).set cn ((board.getD rn []).getD cn 0)) := by
            rw [h1]
        _ = board.set rn (board.getD rn []) := by rw [set_getD_self _ _ _ hclt]
        _ = board := set_getD_self _ _ _ hrlt
    · exact hside 0

/-- Witness for C9 on a concrete 2×2 binary board at square `(1, 0)`. -/
theorem change_square_toggle_witness :
    change_square (change_square [[0, 1], [1, 0]] (1, 0)) (1, 0) = [[0, 1], [1, 0]] ∧
    ∀ i j : Nat, ¬(i = (0 : Int).toNat ∧ j = (1 : Int).toNat) →
      getCell (change_square [[0, 1], [1, 0]] (1, 0)) i j = getCell [[0, 1], [1, 0]] i j :=
  change_square_toggle [[0, 1], [1, 0]] (1, 0) (by decide) (by decide) (by decide)
    (by decide) (by decide)

/-! ### The simulation loop: writes go only to the output component -/

theorem innerStep_foldl (width height i : Nat) (l : List Nat) :
    ∀ st : Board × Board,
      l.foldl (innerStep width height i) st =
        (st.1, l.foldl (fun out j => setCell out i j (tickCell st.1 width height i j)) st.2) := by
  induction l with
  | nil => intro st; rfl
  | cons a t ih =>
      intro st
      rw [List.foldl_cons, List.foldl_cons, ih]
      rfl

theorem outerStep_foldl (width height : Nat) (l : List Nat) :
    ∀ st : Board × Board,
      l.foldl (outerStep width height) st =
        (st.1, l.foldl (fun out i => writeRowN st.1 width height i height out) st.2) := by
  induction l with
  | nil => intro st; rfl
  | cons a t ih =>
      intro st
      rw [List.foldl_cons, List.foldl_cons]
      have h1 : outerStep width height st a =
          (st.1, writeRowN st.1 width height a height st.2) := by
        rw [outerStep, innerStep_foldl]
        rfl
      rw [h1, ih]

theorem tickLoop_eq (board out : Board) (width height : Nat) :
    tickLoop width height (board, out) = (board, writeRowsN board width height width out) := by
  rw [tickLoop, outerStep_foldl]
  rfl

/-- C6: the simulation loop of `tick` never writes into its input
board: the input component of the threaded (input, output) state is
returned exactly as it was passed in, and `tick` itself only returns
the output component of that loop, run on a fresh copy of the input. -/
theorem tick_input_unchanged (board out : Board) (width height : Nat) :
    (tickLoop width height (board, out)).1 = board ∧
    tick board = (tickLoop board.length ((board.getD 0 []).length) (board, board)).2 :=
  ⟨by rw [tickLoop_eq], rfl⟩

/-! ### Writes of the simulation loop, characterised cell by cell -/

theorem setCell_length (out : Board) (i j v : Nat) :
    (setCell out i j v).length = out.length := by
  simp [setCell]

theorem setCell_rowlen (out : Board) (i j v k : Nat) :
    ((setCell out i j v).getD k []).length = (out.getD k []).length := by
  unfold setCell
  rcases Nat.lt_or_ge i out.length with h | h
  · by_cases hk : i = k
    · subst hk
      rw [getD_set_self _ _ _ _ h]
      simp
    · rw [getD_set_ne _ _ _ _ _ hk]
  · rw [List.set_eq_of_length_le h]

theorem getCell_setCell (out : Board) (i j v : Nat) (hi : i < out.length)
    (hj : j < (out.getD i []).length) (i' j' : Nat) :
    getCell (setCell out i j v) i' j' =
      if i' = i ∧ j' = j then v else getCell out i' j' := by
  unfold getCell setCell
  by_cases hii : i' = i
  · subst hii
    rw [getD_set_self _ _ _ _ hi]
    by_cases hjj : j' = j
    · subst hjj
      rw [getD_set_self _ _ _ _ hj]
      simp
    · rw [getD_set_ne _ _ _ _ _ fun h => hjj h.symm]
      simp [hjj]
  · rw [getD_set_ne _ _ _ _ _ fun h => hii h.symm]
    simp [hii]

theorem writeRowN_succ (b : Board) (width height i n : Nat) (out : Board) :
    writeRowN b width height i (n + 1) out =
      setCell (writeRowN b width height i n out) i n (tickCell b width height i n) := by
  rw [writeRowN, writeRowN, List.range_succ, List.foldl_append]
  rfl

theorem writeRowsN_succ (b : Board) (width height m : Nat) (out : Board) :
    writeRowsN b width height (m + 1) out =
      writeRowN b width height m height (writeRowsN b width height m out) := by
  rw [writeRowsN, writeRowsN, List.range_succ, List.foldl_append]
  rfl

theorem writeRowN_length (b : Board) (width height i n : Nat) (out : Board) :
    (writeRowN b width height i n out).length = out.length := by
  induction n with
  | zero => rfl
  | succ n ih => rw [writeRowN_succ, setCell_length, ih]

theorem writeRowN_rowlen (b : Board) (width height i n : Nat) (out : Board) (k : Nat) :
    ((writeRowN b width height i n out).getD k []).length = (out.getD k []).length := by
  induction n with
  | zero => rfl
  | succ n ih => rw [writeRowN_succ, setCell_rowlen, ih]

theorem writeRowsN_length (b : Board) (width height m : Nat) (out : Board) :
    (writeRowsN b width height m out).length = out.length := by
  induction m with
  | zero => rfl
  | succ m ih => rw [writeRowsN_succ, writeRowN_length, ih]

theorem writeRowsN_rowlen (b : Board) (width height m : Nat) (out : Board) (k : Nat) :
    ((writeRowsN b width height m out).getD k []).length = (out.getD k []).length := by
  induction m with
  | zero => rfl
  | succ m ih => rw [writeRowsN_succ, writeRowN_rowlen, ih]

theorem getCell_writeRowN (b : Board) (width height i n : Nat) (out : Board)
    (hi : i < out.length) (hn : n ≤ (out.getD i []).length) (i' j' : Nat) :
    getCell (writeRowN b width height i n out) i' j' =
      if i' = i ∧ j' < n then tickCell b width height i j' else getCell out i' j' := by
  induction n with
  | zero => simp [writeRowN, List.range_zero]
  | succ n ih =>
      rw [writeRowN_succ,
        getCell_setCell _ _ _ _ (by rw [writeRowN_length]; exact hi)
          (by rw [writeRowN_rowlen]; omega) i' j',
        ih (by omega)]
      by_cases h1 : i' = i
      · subst h1
        by_cases h2 : j' = n
        · subst h2
          simp [Nat.lt_succ_self]
        · have h3 : (j' < n + 1) ↔ j' < n := by omega
          simp [h2, h3]
      · simp [h1]

theorem getCell_writeRowsN (b : Board) (width height m : Nat) (out : Board)
    (hm : m ≤ out.length) (hrows : ∀ k, k < m → height ≤ (out.getD k []).length)
    (i' j' : Nat) :
    getCell (writeRowsN b width height m out) i' j' =
      if i' < m ∧ j' < height then tickCell b width height i' j' else getCell out i' j' := by
  induction m with
  | zero => simp [writeRowsN, List.range_zero]
  | succ m ih =>
      rw [writeRowsN_succ,
        getCell_writeRowN _ _ _ _ _ _ (by rw [writeRowsN_length]; omega)
          (by rw [writeRowsN_rowlen]; exact hrows m (by omega)) i' j',
        ih (by omega) (fun k hk => hrows k (by omega))]
      by_cases h1 : i' = m
      · subst h1
        by_cases hj : j' < height
        · simp [hj, Nat.lt_succ_self]
        · simp [hj]
      · have h2 : (i' < m + 1) ↔ i' < m := by omega
        simp [h1, h2]

/-- C2: on a well-formed board, `tick` returns a board of identical
dimensions whose every cell `(i, j)` is `rules(board[i,j], count)[0]`
with the count taken by `neighborCount` on the prior-generation input
board. -/
theorem tick_step (board : Board)
    (hW : ∀ row ∈ board, row.length = (board.getD 0 []).length) :
    (tick board).length = board.length ∧
    (∀ i, i < board.length → ((tick board).getD i []).length = (board.getD i []).length) ∧
    (∀ i, i < board.length → ∀ j, j < (board.getD 0 []).length →
      getCell (tick board) i j =
        (rules (getCell board i j)
          (neighborCount board board.length ((board.getD 0 []).length) i j)).1) := by
  have hrows : ∀ k, k < board.length →
      (board.getD 0 []).length ≤ (board.getD k []).length := by
    intro k hk
    rw [hW (board.getD k []) (by rw [List.getD_eq_getElem _ _ hk]; exact List.getElem_mem _)]
  have htick : tick board =
      writeRowsN board board.length ((board.getD 0 []).length) board.length board := by
    rw [tick]
    rw [tickLoop_eq]
  refine ⟨?_, ?_, ?_⟩
  · rw [htick, writeRowsN_length]
  · intro i hi
    rw [htick, writeRowsN_rowlen]
  · intro i hi j hj
    rw [htick, getCell_writeRowsN _ _ _ _ _ (le_refl _) hrows, if_pos ⟨hi, hj⟩]
    rfl

/-- Witness for C2 on a concrete 3×3 blinker board. -/
theorem tick_step_witness :
    (tick [[0, 1, 0], [0, 1, 0], [0, 1, 0]]).length = ([[0, 1, 0], [0, 1, 0], [0, 1, 0]] : Board).length ∧
    (∀ i, i < ([[0, 1, 0], [0, 1, 0], [0, 1, 0]] : Board).length →
      ((tick [[0, 1, 0], [0, 1, 0], [0, 1, 0]]).getD i []).length =
        (([[0, 1, 0], [0, 1, 0], [0, 1, 0]] : Board).getD i []).length) ∧
    (∀ i, i < ([[0, 1, 0], [0, 1, 0], [0, 1, 0]] : Board).length →
      ∀ j, j < (([[0, 1, 0], [0, 1, 0], [0, 1, 0]] : Board).getD 0 []).length →
      getCell (tick [[0, 1, 0], [0, 1, 0], [0, 1, 0]]) i j =
        (rules (getCell [[0, 1, 0], [0, 1, 0], [0, 1, 0]] i j)
          (neighborCount [[0, 1, 0], [0, 1, 0], [0, 1, 0]]
            ([[0, 1, 0], [0, 1, 0], [0, 1, 0]] : Board).length
            (([[0, 1, 0], [0, 1, 0], [0, 1, 0]] : Board).getD 0 []).length i j)).1) :=
  tick_step [[0, 1, 0], [0, 1, 0], [0, 1, 0]] (by decide)

/-! ### The neighbour count: bound and toroidal wrap -/

theorem nbStep_flat (board : Board) (width height : Nat) (c : Nat) (nb : Int × Int) :
    nbStep board width height c nb =
      c + (if readCell board width height (wrapIdx width nb.1) (wrapIdx height nb.2) = 1
           then 1 else 0) := by
  obtain ⟨a, b⟩ := nb
  by_cases ha : a = (width : Int) <;> by_cases hb : b = (height : Int) <;>
    by_cases hr : readCell board width height (wrapIdx width a) (wrapIdx height b) = 1 <;>
    simp_all [nbStep, wrapIdx]

theorem foldl_nbStep_le (board : Board) (width height : Nat) (l : List (Int × Int)) :
    ∀ c : Nat, l.foldl (nbStep board width height) c ≤ c + l.length := by
  induction l with
  | nil => intro c; simp
  | cons a t ih =>
      intro c
      rw [List.foldl_cons]
      have h1 := ih (nbStep board width height c a)
      have h2 : nbStep board width height c a ≤ c + 1 := by
        rw [nbStep_flat]
        split <;> omega
      simp only [List.length_cons]
      omega

theorem npWrap (len : Nat) (t : Int) (hlo : -1 ≤ t) (hhi : t ≤ (len : Int)) (hlen : 0 < len) :
    npIndex len (wrapIdx len t) = (t % (len : Int)).toNat := by
  unfold wrapIdx npIndex
  by_cases ht : t = (len : Int)
  · subst ht
    simp [Int.emod_self]
  · rw [if_neg ht]
    by_cases hneg : t < 0
    · have ht1 : t = -1 := by omega
      subst ht1
      rw [if_pos (by omega)]
      have h1 : (-1 : Int) % (len : Int) = (len : Int) - 1 := by
        have h2 := Int.add_mul_emod_self_left (-1) ((len : Int)) 1
        have h3 : (-1 + (len : Int) * 1) = (len : Int) - 1 := by ring
        rw [h3] at h2
        rw [← h2]
        exact Int.emod_eq_of_lt (by omega) (by omega)
      rw [h1]
      omega
    · rw [if_neg hneg]
      rw [Int.emod_eq_of_lt (by omega) (by omega)]

theorem readCell_wrap (board : Board) (width height : Nat) (t s : Int)
    (ht1 : -1 ≤ t) (ht2 : t ≤ (width : Int)) (hw : 0 < width)
    (hs1 : -1 ≤ s) (hs2 : s ≤ (height : Int)) (hh : 0 < height) :
    readCell board width height (wrapIdx width t) (wrapIdx height s) =
      (board.getD ((t % (width : Int)).toNat) []).getD ((s % (height : Int)).toNat) 0 := by
  rw [readCell, npWrap _ _ ht1 ht2 hw, npWrap _ _ hs1 hs2 hh]

/-- C3: the live-neighbour count `tick` computes for any cell is at
most 8, and it equals the toroidal count: each of the 8 neighbour
coordinates is reduced modulo the corresponding dimension, so a cell
in row 0 counts row `width - 1`, a cell in column 0 counts column
`height - 1`, and symmetrically at the opposite edges and corners. -/
theorem neighborCount_toroidal (board : Board) (width height i j : Nat)
    (hi : i < width) (hj : j < height) :
    neighborCount board width height i j ≤ 8 ∧
    neighborCount board width height i j = toroidalNeighborCount board width height i j := by
  constructor
  · have h := foldl_nbStep_le board width height (nPos i j) 0
    simpa [nPos] using h
  · have hw : 0 < width := by omega
    have hh : 0 < height := by omega
    have R : ∀ t s : Int, -1 ≤ t → t ≤ (width : Int) → -1 ≤ s → s ≤ (height : Int) →
        readCell board width height (wrapIdx width t) (wrapIdx height s) =
          (board.getD ((t % (width : Int)).toNat) []).getD ((s % (height : Int)).toNat) 0 :=
      fun t s h1 h2 h3 h4 => readCell_wrap board width height t s h1 h2 hw h3 h4 hh
    simp only [neighborCount, nPos, List.foldl_cons, List.foldl_nil, nbStep_flat]
    rw [R ((i : Int) - 1) (j : Int) (by omega) (by omega) (by omega) (by omega),
        R ((i : Int) - 1) ((j : Int) - 1) (by omega) (by omega) (by omega) (by omega),
        R (i : Int) ((j : Int) - 1) (by omega) (by omega) (by omega) (by omega),
        R ((i : Int) + 1) ((j : Int) - 1) (by omega) (by omega) (by omega) (by omega),
        R ((i : Int) + 1) (j : Int) (by omega) (by omega) (by omega) (by omega),
        R ((i : Int) + 1) ((j : Int) + 1) (by omega) (by omega) (by omega) (by omega),
        R (i : Int) ((j : Int) + 1) (by omega) (by omega) (by omega) (by omega),
        R ((i : Int) - 1) ((j : Int) + 1) (by omega) (by omega) (by omega) (by omega)]
    simp only [toroidalNeighborCount, neighborOffsets, List.map_cons, List.map_nil,
      List.sum_cons, List.sum_nil, sub_eq_add_neg, add_zero]
    omega

/-- Witness for C3 at cell (0, 0) of a concrete 2×3 board. -/
theorem neighborCount_toroidal_witness :
    neighborCount [[1, 0, 1], [0, 1, 0]] 2 3 0 0 ≤ 8 ∧
    neighborCount [[1, 0, 1], [0, 1, 0]] 2 3 0 0 =
      toroidalNeighborCount [[1, 0, 1], [0, 1, 0]] 2 3 0 0 :=
  neighborCount_toroidal [[1, 0, 1], [0, 1, 0]] 2 3 0 0 (by decide) (by decide)

/-! ### The binary-cell invariant -/

theorem rules_binary (alive count : Nat) :
    (rules alive count).1 = 0 ∨ (rules alive count).1 = 1 := by
  rw [rules]
  split_ifs <;> simp [WHITE, BLACK]

theorem binaryBoard_setCell (out : Board) (i j v : Nat) (hv : v = 0 ∨ v = 1)
    (hb : binaryBoard out) : binaryBoard (setCell out i j v) := by
  intro row hrow w hw
  rcases List.mem_or_eq_of_mem_set hrow with hmem | heq
  · exact hb row hmem w hw
  · subst heq
    rcases List.mem_or_eq_of_mem_set hw with hmem2 | heq2
    · rcases Nat.lt_or_ge i out.length with hlt | hge
      · refine hb (out.getD i []) ?_ w hmem2
        rw [List.getD_eq_getElem _ _ hlt]
        exact List.getElem_mem _
      · rw [List.getD_eq_default _ _ hge] at hmem2
        simp at hmem2
    · subst heq2
      exact hv

theorem binaryBoard_writeRowN (b : Board) (width height i n : Nat) (out : Board)
    (hb : binaryBoard out) : binaryBoard (writeRowN b width height i n out) := by
  induction n with
  | zero => exact hb
  | succ n ih =>
      rw [writeRowN_succ]
      exact binaryBoard_setCell _ _ _ _ (rules_binary _ _) ih

theorem binaryBoard_writeRowsN (b : Board) (width height m : Nat) (out : Board)
    (hb : binaryBoard out) : binaryBoard (writeRowsN b width height m out) := by
  induction m with
  | zero => exact hb
  | succ m ih =>
      rw [writeRowsN_succ]
      exact binaryBoard_writeRowN _ _ _ _ _ _ ih

theorem binaryBoard_createBoard (w h : Nat) : binaryBoard (createBoard w h) := by
  intro row hrow v hv
  rw [createBoard] at hrow
  have h1 := List.eq_of_mem_replicate hrow
  subst h1
  left
  exact List.eq_of_mem_replicate hv

theorem binaryBoard_change_square (b : Board) (square : Int × Int)
    (hb : binaryBoard b) : binaryBoard (change_square b square) := by
  simp only [change_square]
  split
  · exact binaryBoard_setCell b _ _ 1 (Or.inr rfl) hb
  · exact binaryBoard_setCell b _ _ 0 (Or.inl rfl) hb

/-- C10: every operation preserves the binary-cell invariant: a fresh
board is all zeros, `rules` only ever returns 0 or 1, `change_square`
writes only 0 or 1, and `tick` writes only values returned by
`rules`, so every reachable board holds only 0/1 cells. -/
theorem binary_invariant (w h alive count : Nat) (b : Board) (square : Int × Int) :
    binaryBoard (createBoard w h) ∧
    ((rules alive count).1 = 0 ∨ (rules alive count).1 = 1) ∧
    (binaryBoard b → binaryBoard (change_square b square)) ∧
    (binaryBoard b → binaryBoard (tick b)) := by
  refine ⟨binaryBoard_createBoard w h, rules_binary alive count,
    fun hb => binaryBoard_change_square b square hb, fun hb => ?_⟩
  rw [tick]
  rw [tickLoop_eq]
  exact binaryBoard_writeRowsN _ _ _ _ _ hb

/-- Witness for C10 on concrete inputs. -/
theorem binary_invariant_witness :
    binaryBoard (createBoard 2 3) ∧
    ((rules 1 3).1 = 0 ∨ (rules 1 3).1 = 1) ∧
    binaryBoard (change_square [[0, 1], [1, 0]] (0, 0)) ∧
    binaryBoard (tick [[0, 1], [1, 0]]) := by
  obtain ⟨h1, h2, h3, h4⟩ := binary_invariant 2 3 1 3 [[0, 1], [1, 0]] (0, 0)
  exact ⟨h1, h2, h3 (by unfold binaryBoard; decide), h4 (by unfold binaryBoard; decide)⟩

end GameOfLife
